import Mathlib

/-!
Verification development for the PIN brute-force smart-gateway web service
(`webgui.py`).  The Python source is shallowly embedded: each relevant
function becomes a Lean definition producing either a value or an explicit
trace of its externally visible effects (GPIO writes, sleeps, log calls,
thread operations), and the specification's claims are settled as theorems
about those definitions.
-/

namespace Webgui

/-! ## Decimal formatting (`f"{n:04d}"`)

Python's `f"{n:04d}"` renders `n` in decimal and left-pads with `'0'` to a
minimum width of 4.  `dchar d` is the decimal digit character for `d < 10`,
`decRepr n` the list of decimal digit characters of `n`, and `fmt04 n` the
zero-padded string. -/

def dchar (d : Nat) : Char := Char.ofNat (48 + d)

/-- Decimal digit characters of `n`, most significant first, computed with a
structural fuel argument (`fuel ≥ n` suffices, and the fallback at fuel 0 is
only reached for `n = 0`, where it agrees with the recursion). -/
def decReprAux : Nat → Nat → List Char
  | 0, n => [dchar n]
  | fuel + 1, n =>
    if n < 10 then [dchar n]
    else decReprAux fuel (n / 10) ++ [dchar (n % 10)]

def decRepr (n : Nat) : List Char := decReprAux n n

def fmt04 (n : Nat) : String :=
  ⟨List.replicate (4 - (decRepr n).length) '0' ++ decRepr n⟩

lemma decReprAux_irrel (n : Nat) :
    ∀ f1 f2, n ≤ f1 → n ≤ f2 → decReprAux f1 n = decReprAux f2 n := by
  induction n using Nat.strong_induction_on with
  | _ n ih =>
    intro f1 f2 h1 h2
    match f1, f2 with
    | 0, 0 => rfl
    | 0, f2 + 1 =>
      have hn : n = 0 := by omega
      subst hn
      simp [decReprAux]
    | f1 + 1, 0 =>
      have hn : n = 0 := by omega
      subst hn
      simp [decReprAux]
    | f1 + 1, f2 + 1 =>
      by_cases h : n < 10
      · simp [decReprAux, h]
      · have hdiv : n / 10 < n := Nat.div_lt_self (by omega) (by omega)
        simp only [decReprAux, if_neg h]
        rw [ih (n / 10) hdiv f1 f2 (by omega) (by omega)]

lemma decRepr_eq (n : Nat) :
    decRepr n = if n < 10 then [dchar n] else decRepr (n / 10) ++ [dchar (n % 10)] := by
  unfold decRepr
  match n with
  | 0 => simp [decReprAux]
  | m + 1 =>
    by_cases h : m + 1 < 10
    · simp [decReprAux, h]
    · have hdiv : (m + 1) / 10 < m + 1 := Nat.div_lt_self (by omega) (by omega)
      simp only [decReprAux, if_neg h]
      rw [decReprAux_irrel ((m + 1) / 10) m ((m + 1) / 10) (by omega) (by omega)]

/-- The four decimal digit characters of a number below 10000. -/
def digits4 (n : Nat) : List Char :=
  [dchar (n / 1000), dchar (n / 100 % 10), dchar (n / 10 % 10), dchar (n % 10)]

lemma decRepr_lt10 {n : Nat} (h : n < 10) : decRepr n = [dchar n] := by
  rw [decRepr_eq]
  simp [h]

lemma decRepr_ge10 {n : Nat} (h : ¬ n < 10) :
    decRepr n = decRepr (n / 10) ++ [dchar (n % 10)] := by
  rw [decRepr_eq]
  simp [h]

lemma div_lt_helper {a b c : Nat} (hb : 0 < b) (h : a < c * b) : a / b < c :=
  (Nat.div_lt_iff_lt_mul hb).mpr h

lemma decRepr_band2 {n : Nat} (h1 : 10 ≤ n) (h2 : n < 100) :
    decRepr n = [dchar (n / 10), dchar (n % 10)] := by
  rw [decRepr_ge10 (by omega)]
  rw [decRepr_lt10 (div_lt_helper (by norm_num) (by omega))]
  rfl

lemma decRepr_band3 {n : Nat} (h1 : 100 ≤ n) (h2 : n < 1000) :
    decRepr n = [dchar (n / 100), dchar (n / 10 % 10), dchar (n % 10)] := by
  rw [decRepr_ge10 (by omega)]
  have hd1 : 10 ≤ n / 10 := Nat.le_div_iff_mul_le (by omega) |>.2 (by omega)
  have hd2 : n / 10 < 100 := div_lt_helper (by norm_num) (by omega)
  rw [decRepr_band2 hd1 hd2]
  have e1 : n / 10 / 10 = n / 100 := by
    rw [Nat.div_div_eq_div_mul]
  rw [e1]
  rfl

lemma decRepr_band4 {n : Nat} (h1 : 1000 ≤ n) (h2 : n < 10000) :
    decRepr n = digits4 n := by
  rw [decRepr_ge10 (by omega)]
  have hd1 : 100 ≤ n / 10 := Nat.le_div_iff_mul_le (by omega) |>.2 (by omega)
  have hd2 : n / 10 < 1000 := div_lt_helper (by norm_num) (by omega)
  rw [decRepr_band3 hd1 hd2]
  have e1 : n / 10 / 100 = n / 1000 := by rw [Nat.div_div_eq_div_mul]
  have e2 : n / 10 / 10 = n / 100 := by rw [Nat.div_div_eq_div_mul]
  rw [e1, e2]
  rfl

lemma fmt04_data {n : Nat} (h : n < 10000) : (fmt04 n).data = digits4 n := by
  unfold fmt04
  by_cases h1 : n < 10
  · rw [decRepr_lt10 h1]
    have e3 : n / 1000 = 0 := Nat.div_eq_of_lt (by omega)
    have e2 : n / 100 = 0 := Nat.div_eq_of_lt (by omega)
    have e1 : n / 10 = 0 := Nat.div_eq_of_lt (by omega)
    have e0 : n % 10 = n := Nat.mod_eq_of_lt h1
    simp [digits4, e3, e2, e1, e0]
    rfl
  · by_cases h2 : n < 100
    · rw [decRepr_band2 (by omega) h2]
      have e3 : n / 1000 = 0 := Nat.div_eq_of_lt (by omega)
      have e2 : n / 100 = 0 := Nat.div_eq_of_lt (by omega)
      have e1 : n / 10 % 10 = n / 10 :=
        Nat.mod_eq_of_lt (div_lt_helper (by norm_num) (by omega))
      simp [digits4, e3, e2, e1]
      rfl
    · by_cases h3 : n < 1000
      · rw [decRepr_band3 (by omega) h3]
        have e3 : n / 1000 = 0 := Nat.div_eq_of_lt (by omega)
        have e2 : n / 100 % 10 = n / 100 :=
          Nat.mod_eq_of_lt (div_lt_helper (by norm_num) (by omega))
        simp [digits4, e3, e2]
        rfl
      · rw [decRepr_band4 (by omega) h]
        have hlen : (digits4 n).length = 4 := rfl
        rw [hlen]
        simp

/-! ## Lexicographic order on digit strings -/

lemma dchar_lt_iff :
    ∀ x, x < 10 → ∀ y, y < 10 → (dchar x < dchar y ↔ x < y) := by decide

lemma dchar_inj : ∀ x, x < 10 → ∀ y, y < 10 → dchar x = dchar y → x = y := by
  decide

lemma lex_ne {a b : List Char} (h : List.Lex (· < ·) a b) : a ≠ b := by
  induction h with
  | nil => simp
  | cons _ ih =>
    intro he
    injection he with _ h2
    exact ih h2
  | rel hr =>
    intro he
    injection he with h1 _
    rw [h1] at hr
    exact lt_irrefl _ hr

lemma lex_append_same_length {a b : List Char} (hl : a.length = b.length)
    (h : List.Lex (· < ·) a b) :
    ∀ s t : List Char, List.Lex (· < ·) (a ++ s) (b ++ t) := by
  induction h with
  | nil => simp at hl
  | cons _ ih =>
    intro s t
    exact List.Lex.cons (ih (by simpa using hl) s t)
  | rel hr =>
    intro s t
    exact List.Lex.rel hr

lemma digits4_lt {i j : Nat} (hij : i < j) (hj : j ≤ 9999) :
    List.Lex (· < ·) (digits4 i) (digits4 j) := by
  have hi9 : i / 1000 < 10 := div_lt_helper (by norm_num) (by omega)
  have hj9 : j / 1000 < 10 := div_lt_helper (by norm_num) (by omega)
  unfold digits4
  rcases Nat.lt_or_ge (i / 1000) (j / 1000) with hlt | hge
  · exact List.Lex.rel ((dchar_lt_iff _ hi9 _ hj9).2 hlt)
  have e3 : i / 1000 = j / 1000 :=
    Nat.le_antisymm (Nat.div_le_div_right (Nat.le_of_lt hij)) hge
  rw [e3]
  refine List.Lex.cons ?_
  have hm3 : i % 1000 < j % 1000 := by
    have di := Nat.div_add_mod i 1000
    have dj := Nat.div_add_mod j 1000
    omega
  have ei2 : i % 1000 / 100 = i / 100 % 10 := by
    have := Nat.mod_mul_right_div_self i 100 10
    norm_num at this
    exact this
  have ej2 : j % 1000 / 100 = j / 100 % 10 := by
    have := Nat.mod_mul_right_div_self j 100 10
    norm_num at this
    exact this
  rcases Nat.lt_or_ge (i / 100 % 10) (j / 100 % 10) with hlt2 | hge2
  · exact List.Lex.rel
      ((dchar_lt_iff _ (Nat.mod_lt _ (by norm_num)) _ (Nat.mod_lt _ (by norm_num))).2 hlt2)
  have e2 : i / 100 % 10 = j / 100 % 10 := by
    have h2le : i % 1000 / 100 ≤ j % 1000 / 100 :=
      Nat.div_le_div_right (Nat.le_of_lt hm3)
    omega
  rw [e2]
  refine List.Lex.cons ?_
  have hm2 : i % 100 < j % 100 := by
    have di := Nat.div_add_mod (i % 1000) 100
    have dj := Nat.div_add_mod (j % 1000) 100
    have mi : i % 1000 % 100 = i % 100 := Nat.mod_mod_of_dvd _ (by norm_num)
    have mj : j % 1000 % 100 = j % 100 := Nat.mod_mod_of_dvd _ (by norm_num)
    omega
  have ei1 : i % 100 / 10 = i / 10 % 10 := by
    have := Nat.mod_mul_right_div_self i 10 10
    norm_num at this
    exact this
  have ej1 : j % 100 / 10 = j / 10 % 10 := by
    have := Nat.mod_mul_right_div_self j 10 10
    norm_num at this
    exact this
  rcases Nat.lt_or_ge (i / 10 % 10) (j / 10 % 10) with hlt1 | hge1
  · exact List.Lex.rel
      ((dchar_lt_iff _ (Nat.mod_lt _ (by norm_num)) _ (Nat.mod_lt _ (by norm_num))).2 hlt1)
  have e1 : i / 10 % 10 = j / 10 % 10 := by
    have h1le : i % 100 / 10 ≤ j % 100 / 10 :=
      Nat.div_le_div_right (Nat.le_of_lt hm2)
    omega
  rw [e1]
  refine List.Lex.cons ?_
  have hm0 : i % 10 < j % 10 := by
    have di := Nat.div_add_mod (i % 100) 10
    have dj := Nat.div_add_mod (j % 100) 10
    have mi : i % 100 % 10 = i % 10 := Nat.mod_mod_of_dvd _ (by norm_num)
    have mj : j % 100 % 10 = j % 10 := Nat.mod_mod_of_dvd _ (by norm_num)
    omega
  exact List.Lex.rel
    ((dchar_lt_iff _ (Nat.mod_lt _ (by norm_num)) _ (Nat.mod_lt _ (by norm_num))).2 hm0)

lemma fmt04_strict_mono {i j : Nat} (hij : i < j) (hj : j ≤ 9999) :
    fmt04 i < fmt04 j := by
  rw [String.lt_iff_toList_lt]
  show List.Lex (· < ·) (fmt04 i).data (fmt04 j).data
  rw [fmt04_data (by omega), fmt04_data (by omega)]
  exact digits4_lt hij hj

lemma fmt04_inj {i j : Nat} (hi : i < 10000) (hj : j < 10000)
    (h : fmt04 i = fmt04 j) : i = j := by
  by_contra hne
  have hd := congrArg String.data h
  rw [fmt04_data hi, fmt04_data hj] at hd
  rcases Nat.lt_or_ge i j with hlt | hge
  · exact lex_ne (digits4_lt hlt (by omega)) hd
  · have hlt : j < i := by omega
    exact lex_ne (digits4_lt hlt (by omega)) hd.symm

/-- Lexicographic order on strings by code point, as Python compares `str`
values.  This is decidable by structural recursion and agrees with the
ambient `<` on `String` (see `strLt_iff_lt`). -/
def strLt (a b : String) : Prop := List.Lex (· < ·) a.data b.data

instance strLt.decidable (a b : String) : Decidable (strLt a b) :=
  List.Lex.decidableRel _ a.data b.data

lemma strLt_iff_lt {a b : String} : strLt a b ↔ a < b :=
  Iff.symm String.lt_iff_toList_lt

/-! ## PulseEmitter and CodeSender (`send_light_pulse`, `send_pin`)

The GPIO-level effect trace: a `GEv` is one externally visible action of
the pulse path (drive the line high/low, or sleep for a number of
milliseconds). -/

inductive GEv where
  | high : GEv
  | low : GEv
  | sleep : Nat → GEv
deriving DecidableEq

/-- `send_light_pulse` from the source: line high, sleep 0.2 s, line low,
sleep 0.3 s. -/
def send_light_pulse : List GEv := [.high, .sleep 200, .low, .sleep 300]

/-- `int(digit_char)` for a decimal digit character. -/
def digitVal (c : Char) : Nat := c.toNat - 48

/-- `send_pin` from the source: one start pulse, sleep 1 s, then for each
character of the PIN (with its index) emit `int(ch)` pulses each followed by
a 0.1 s sleep, and after every position `i < 3` sleep 3.1 s. -/
def send_pin (pin : String) : List GEv :=
  send_light_pulse ++ [.sleep 1000] ++
    (pin.data.enum.map (fun p =>
      (List.replicate (digitVal p.2) (send_light_pulse ++ [.sleep 100])).join ++
        (if p.1 < 3 then [.sleep 3100] else []))).join

/-- Modelled from the spec wording of claim C1: a single pulse drives the
line high for 200 ms then low for 300 ms. -/
def specPulse : List GEv := [.high, .sleep 200, .low, .sleep 300]

/-- Modelled from the spec wording of claim C1: a digit of value `d` is sent
as `d` pulses, each followed by a 100 ms gap. -/
def specDigitBlock (d : Nat) : List GEv :=
  (List.replicate d (specPulse ++ [.sleep 100])).join

/-- Modelled from the spec wording of claim C1: start pulse, 1.0 s settle,
then the four digit blocks separated by 3.1 s inter-digit windows, with no
wait after the last digit. -/
def specSend (d0 d1 d2 d3 : Nat) : List GEv :=
  specPulse ++ [.sleep 1000] ++
    specDigitBlock d0 ++ [.sleep 3100] ++
    specDigitBlock d1 ++ [.sleep 3100] ++
    specDigitBlock d2 ++ [.sleep 3100] ++
    specDigitBlock d3

/-- Claim C1: for every 4-character decimal code string, `send_pin` emits one
start pulse, a 1.0 s settle delay, then for each digit position `i = 0..3`
exactly `d` pulses (the digit's value) with a 100 ms gap after each pulse,
with a 3.1 s inter-digit window exactly after positions `i < 3`; each pulse
drives the line high 200 ms then low 300 ms. -/
theorem send_pin_emits_protocol (c0 c1 c2 c3 : Char)
    (_h0 : c0.isDigit = true) (_h1 : c1.isDigit = true)
    (_h2 : c2.isDigit = true) (_h3 : c3.isDigit = true) :
    send_pin ⟨[c0, c1, c2, c3]⟩ =
      specSend (digitVal c0) (digitVal c1) (digitVal c2) (digitVal c3) := by
  simp [send_pin, specSend, specDigitBlock, specPulse, send_light_pulse,
    List.enum, List.enumFrom]

/-- Witness for claim C1 at the concrete code "1234". -/
theorem send_pin_emits_protocol_witness :
    ('1'.isDigit = true ∧ '2'.isDigit = true ∧ '3'.isDigit = true ∧
      '4'.isDigit = true) ∧
    send_pin ⟨['1', '2', '3', '4']⟩ = specSend 1 2 3 4 :=
  ⟨by decide, send_pin_emits_protocol '1' '2' '3' '4' rfl rfl rfl rfl⟩

/-! ## CaptureTask (`record_images_and_video`)

The capture thread is embedded as a function of: whether the global
`camera` handle is set, the run-start timestamp string, and the sequence of
capture ticks taken while `running` holds, each tick carrying the result of
`camera.read()` (`true` = a frame arrived).  The result records the
persisted image names in capture order, the number of frames appended to
the video artifact, whether the video writer was opened and released, and
the log calls made. -/

inductive CEv where
  | logNoCamera : CEv
  | logMiss : CEv
  | savedImage : String → CEv
deriving DecidableEq

structure CaptureResult where
  images : List String
  videoFrames : Nat
  videoOpened : Bool
  videoReleased : Bool
  events : List CEv
deriving DecidableEq

/-- Image artifact filename `f"{timestamp}_{img_count:04d}.jpg"` from the
source. -/
def imgName (ts : String) (count : Nat) : String :=
  ts ++ "_" ++ fmt04 count ++ ".jpg"

/-- The `while running:` body of `record_images_and_video`: a successful
read saves a stamped image named with the per-run counter (starting at 1)
and appends the frame to the video; a failed read logs a miss and the loop
proceeds. -/
def captureLoop (ts : String) : Nat → List Bool → List String × Nat × List CEv
  | _, [] => ([], 0, [])
  | cnt, ok :: rest =>
    if ok then
      let r := captureLoop ts (cnt + 1) rest
      (imgName ts cnt :: r.1, r.2.1 + 1, .savedImage (imgName ts cnt) :: r.2.2)
    else
      let r := captureLoop ts cnt rest
      (r.1, r.2.1, .logMiss :: r.2.2)

/-- `record_images_and_video` from the source: with no camera handle it
logs and returns without artifacts; otherwise it opens one video writer,
runs the capture loop with the image counter starting at 1, and releases
the writer after the loop. -/
def record_images_and_video (camPresent : Bool) (ts : String)
    (ticks : List Bool) : CaptureResult :=
  if camPresent then
    let r := captureLoop ts 1 ticks
    ⟨r.1, r.2.1, true, true, r.2.2⟩
  else ⟨[], 0, false, false, [.logNoCamera]⟩

lemma captureLoop_spec (ts : String) :
    ∀ (ticks : List Bool) (cnt : Nat),
      (captureLoop ts cnt ticks).1 =
        (List.range' cnt ((ticks.filter (fun b => b)).length)).map (imgName ts) ∧
      (captureLoop ts cnt ticks).2.1 = (ticks.filter (fun b => b)).length ∧
      (captureLoop ts cnt ticks).2.2.count CEv.logMiss =
        (ticks.filter (fun b => !b)).length := by
  intro ticks
  induction ticks with
  | nil => intro cnt; simp [captureLoop]
  | cons ok rest ih =>
    intro cnt
    cases ok with
    | true =>
      have h := ih (cnt + 1)
      simp only [captureLoop, if_pos rfl] at *
      refine ⟨?_, ?_, ?_⟩
      · simp [List.range'_succ, h.1]
      · simp [h.2.1]
      · simpa using h.2.2
    | false =>
      have h := ih cnt
      simp only [captureLoop] at *
      refine ⟨?_, ?_, ?_⟩
      · simpa using h.1
      · simpa using h.2.1
      · simpa using h.2.2

/-- Claim C7 counterexample: with the camera open, a run taking two capture
ticks of which the second frame read fails persists only one image, not one
per tick — a tick with a failed read does not count toward the image total,
contradicting the claim that such a tick still counts toward N. -/
theorem failed_tick_produces_no_image_cx :
    ¬ ((record_images_and_video true "20240101_120000" [true, false]).images.length
        = ([true, false] : List Bool).length) := by decide

/-- Claim C7 (amended): with a camera handle present, a run produces exactly
one video artifact, opened once and released before the task returns, and
exactly one image artifact per tick whose frame read succeeded (named with
the per-run counter starting at 1); a tick with a failed read produces no
image but logs a miss and the loop proceeds. -/
theorem capture_artifact_counts (ts : String) (ticks : List Bool) :
    (record_images_and_video true ts ticks).images =
      (List.range' 1 ((ticks.filter (fun b => b)).length)).map (imgName ts) ∧
    (record_images_and_video true ts ticks).images.length =
      (ticks.filter (fun b => b)).length ∧
    (record_images_and_video true ts ticks).videoOpened = true ∧
    (record_images_and_video true ts ticks).videoReleased = true ∧
    (record_images_and_video true ts ticks).events.count CEv.logMiss =
      (ticks.filter (fun b => !b)).length := by
  have h := captureLoop_spec ts ticks 1
  simp only [record_images_and_video, if_pos rfl]
  refine ⟨h.1, ?_, rfl, rfl, h.2.2⟩
  simp [h.1]

/-- Claim C8 counterexample: within one run the 9999th image is persisted
before the 10000th, but its filename is not lexicographically smaller —
`%04d` stops zero-padding at five digits, so `..._9999.jpg` sorts after
`..._10000.jpg`. -/
theorem image_name_order_overflow_cx :
    ¬ strLt (imgName "20240101_120000" 9999) (imgName "20240101_120000" 10000) ∧
    strLt (imgName "20240101_120000" 10000) (imgName "20240101_120000" 9999) := by
  decide

lemma imgName_data {ts : String} {n : Nat} (h : n < 10000) :
    (imgName ts n).data =
      (ts.data ++ ['_']) ++ (digits4 n ++ ['.', 'j', 'p', 'g']) := by
  unfold imgName
  rw [String.data_append, String.data_append, String.data_append, fmt04_data h]
  simp

/-- Claim C8 (amended): image filenames within one run are strictly
increasing in lexicographic order with respect to capture order as long as
the per-run counter stays within the zero-padded `%04d` field, i.e. for the
first 9999 images; the 10000th image breaks the order (see the
counterexample). -/
theorem image_names_sorted_within_counter_range (ts : String) (i j : Nat)
    (_h1 : 1 ≤ i) (hij : i < j) (hj : j ≤ 9999) :
    strLt (imgName ts i) (imgName ts j) := by
  unfold strLt
  rw [imgName_data (by omega), imgName_data (by omega)]
  have hlex := digits4_lt hij hj
  have hlen : (digits4 i).length = (digits4 j).length := rfl
  exact List.Lex.append_left _ (lex_append_same_length hlen hlex _ _) _

/-- Witness for claim C8 at counters 1 and 2. -/
theorem image_names_sorted_witness :
    (1 ≤ 1 ∧ 1 < 2 ∧ 2 ≤ 9999) ∧
    strLt (imgName "20240101_120000" 1) (imgName "20240101_120000" 2) :=
  ⟨by omega, image_names_sorted_within_counter_range "20240101_120000" 1 2
    (by omega) (by omega) (by omega)⟩

/-! ## AttemptOrchestrator (`bruteforce_pins`)

The orchestrator thread body is embedded as the trace of its externally
visible actions.  The cooperative stop flag is modelled by `s : Option Nat`:
`some k` means the `if not running:` check at the top of iteration `k` is
the first to read the flag as false (the stop request landed during
iteration `k - 1`, after that iteration's check).  `e : Option Nat` injects
an exception raised inside `send_pin` at iteration `e` (e.g. a GPIO
failure), modelling the `except Exception` path. -/

inductive OEv where
  | setRunning : Bool → OEv
  | startRecordThread : OEv
  | setLastPin : String → OEv
  | send : String → OEv
  | sendRaise : String → OEv
  | sleepMs : Nat → OEv
  | logError : OEv
  | joinRecord : Nat → OEv
  | gpioLow : OEv
deriving DecidableEq

/-- Whether the `if not running:` check at the top of iteration `i` reads
the flag as false. -/
def stopped (s : Option Nat) (i : Nat) : Bool :=
  match s with
  | none => false
  | some k => k ≤ i

/-- The `for i in range(0, 10000):` loop body of `bruteforce_pins`, with
`n` iterations remaining and current index `i`: check the flag (break if
cleared), set `last_pin`, call `send_pin` (which may raise at iteration
`e`), sleep 3 s. -/
def loopIter (s e : Option Nat) : Nat → Nat → List OEv
  | 0, _ => []
  | n + 1, i =>
    if stopped s i then []
    else
      .setLastPin (fmt04 i) ::
        (if e = some i then [.sendRaise (fmt04 i)]
         else .send (fmt04 i) :: .sleepMs 3000 :: loopIter s e n (i + 1))

/-- Whether the injected exception is actually raised: its iteration must be
reached before the stop flag is observed. -/
def raiseReached (s e : Option Nat) : Bool :=
  match e with
  | none => false
  | some k => decide (k < 10000) && !stopped s k

/-- `bruteforce_pins` from the source: set `running = True`, start the
record thread, run the loop inside `try`; on an exception log it
(`except Exception`); in all cases (`finally`) set `running = False`, join
the record thread with a 5 s timeout, and drive the GPIO line low. -/
def bruteforceEvents (s e : Option Nat) : List OEv :=
  [.setRunning true, .startRecordThread] ++ loopIter s e 10000 0 ++
    (if raiseReached s e then [.logError] else []) ++
    [.setRunning false, .joinRecord 5000, .gpioLow]

def sendOf : OEv → Option String
  | .send p => some p
  | _ => none

/-- The codes passed to `send_pin` (completed calls), in order. -/
def sentPins (s e : Option Nat) : List String :=
  (bruteforceEvents s e).filterMap sendOf

/-- The process-wide mutable state read by `/pin` status queries and frame
stamping: `running` and `last_pin`. -/
structure RunView where
  running : Bool
  lastPin : Option String
deriving DecidableEq

def applyEv (v : RunView) : OEv → RunView
  | .setRunning b => { v with running := b }
  | .setLastPin p => { v with lastPin := some p }
  | _ => v

/-- The shared state after a prefix of the orchestrator trace has executed,
starting from state `v`. -/
def viewAfter (v : RunView) (tr : List OEv) : RunView := tr.foldl applyEv v

/-- The `/pin` route `get_current_pin`: returns `last_pin` and `running`. -/
def get_current_pin (v : RunView) : Option String × Bool := (v.lastPin, v.running)

lemma loopIter_unfold {s e : Option Nat} {n i : Nat} (hst : stopped s i = false)
    (he : e ≠ some i) :
    loopIter s e (n + 1) i =
      .setLastPin (fmt04 i) :: .send (fmt04 i) :: .sleepMs 3000 ::
        loopIter s e n (i + 1) := by
  simp [loopIter, hst, he]

/-- How many codes the loop sends when started at index `i` with `n`
iterations remaining and stop parameter `s`. -/
def sentLen (s : Option Nat) (n i : Nat) : Nat :=
  match s with
  | none => n
  | some k => min n (k - i)

lemma loopIter_sends (s : Option Nat) :
    ∀ n i, (loopIter s none n i).filterMap sendOf =
      (List.range' i (sentLen s n i)).map fmt04 := by
  intro n
  induction n with
  | zero =>
    intro i
    match s with
    | none => simp [loopIter, sentLen]
    | some k => simp [loopIter, sentLen]
  | succ n ih =>
    intro i
    match s with
    | none =>
      rw [loopIter_unfold (s := none) (e := none) rfl (by simp)]
      simp only [sentLen] at ih ⊢
      rw [List.range'_succ]
      simp only [List.filterMap_cons, sendOf]
      simpa using ih (i + 1)
    | some k =>
      by_cases hk : k ≤ i
      · have hst : stopped (some k) i = true := by simp [stopped, hk]
        simp only [loopIter, hst, if_pos rfl]
        have hz : sentLen (some k) (n + 1) i = 0 := by simp [sentLen]; omega
        simp [hz]
      · have hst : stopped (some k) i = false := by simp [stopped]; omega
        rw [loopIter_unfold hst (by simp)]
        simp only [sentLen] at ih ⊢
        have hmin : min (n + 1) (k - i) = min n (k - (i + 1)) + 1 := by omega
        rw [hmin, List.range'_succ]
        simp only [List.filterMap_cons, sendOf]
        simpa using ih (i + 1)

lemma loopIter_block (n : Nat) :
    ∀ i j, j < n → ∃ pre post, loopIter none none n i =
      pre ++ [.setLastPin (fmt04 (i + j)), .send (fmt04 (i + j)), .sleepMs 3000] ++ post := by
  induction n with
  | zero => intro i j hj; omega
  | succ n ih =>
    intro i j hj
    rcases j with _ | j
    · refine ⟨[], loopIter none none n (i + 1), ?_⟩
      simp [loopIter, stopped]
    · obtain ⟨pre, post, hpp⟩ := ih (i + 1) j (by omega)
      refine ⟨.setLastPin (fmt04 i) :: .send (fmt04 i) :: .sleepMs 3000 :: pre, post, ?_⟩
      have he : i + (j + 1) = i + 1 + j := by omega
      rw [he]
      simp [loopIter, stopped, hpp]

lemma loopIter_setPin_next (s : Option Nat) :
    ∀ n i q c, (loopIter s none n i).get? q = some (.setLastPin c) →
      (loopIter s none n i).get? (q + 1) = some (.send c) := by
  intro n
  induction n with
  | zero => intro i q c h; simp [loopIter] at h
  | succ n ih =>
    intro i q c h
    by_cases hst : stopped s i = true
    · simp [loopIter, hst] at h
    · rw [Bool.not_eq_true] at hst
      rw [loopIter_unfold hst (by simp)] at h ⊢
      rcases q with _ | _ | _ | q
      · simp only [List.get?_cons_zero, Option.some.injEq, OEv.setLastPin.injEq] at h
        subst h
        rfl
      · simp at h
      · simp at h
      · simp only [List.get?_cons_succ] at h ⊢
        exact ih (i + 1) q c h

lemma viewAfter_lastPin_mem :
    ∀ (l : List OEv) (v : RunView) (c : String),
      (viewAfter v l).lastPin = some c →
        (∃ q, q < l.length ∧ l.get? q = some (.setLastPin c)) ∨ v.lastPin = some c := by
  intro l
  induction l with
  | nil => intro v c h; exact Or.inr h
  | cons e t ih =>
    intro v c h
    have h' : (viewAfter (applyEv v e) t).lastPin = some c := h
    rcases ih (applyEv v e) c h' with ⟨q, hq, hget⟩ | hbase
    · exact Or.inl ⟨q + 1, by simpa using Nat.succ_lt_succ hq, by simpa using hget⟩
    · cases e with
      | setLastPin p =>
        have : some p = some c := hbase
        exact Or.inl ⟨0, by simp, by simpa using this⟩
      | setRunning b => exact Or.inr hbase
      | startRecordThread => exact Or.inr hbase
      | send p => exact Or.inr hbase
      | sendRaise p => exact Or.inr hbase
      | sleepMs m => exact Or.inr hbase
      | logError => exact Or.inr hbase
      | joinRecord m => exact Or.inr hbase
      | gpioLow => exact Or.inr hbase

lemma loopIter_view (k : Nat) :
    ∀ n i v, (viewAfter v (loopIter (some k) none n i)).running = v.running ∧
      (viewAfter v (loopIter (some k) none n i)).lastPin =
        (if k ≤ i ∨ n = 0 then v.lastPin else some (fmt04 (min (i + n) k - 1))) := by
  intro n
  induction n with
  | zero => intro i v; simp [loopIter, viewAfter]
  | succ n ih =>
    intro i v
    by_cases hk : k ≤ i
    · have hst : stopped (some k) i = true := by simp [stopped, hk]
      simp [loopIter, hst, viewAfter, hk]
    · have hst : stopped (some k) i = false := by simp [stopped]; omega
      rw [loopIter_unfold hst (by simp)]
      have hv : viewAfter v
          (.setLastPin (fmt04 i) :: .send (fmt04 i) :: .sleepMs 3000 ::
            loopIter (some k) none n (i + 1)) =
          viewAfter { v with lastPin := some (fmt04 i) } (loopIter (some k) none n (i + 1)) := rfl
      rw [hv]
      obtain ⟨hr, hp⟩ := ih (i + 1) { v with lastPin := some (fmt04 i) }
      refine ⟨hr, ?_⟩
      rw [hp]
      by_cases hcase : k ≤ i + 1 ∨ n = 0
      · rw [if_pos hcase]
        rw [if_neg (show ¬ (k ≤ i ∨ n + 1 = 0) by omega)]
        show some (fmt04 i) = some (fmt04 (min (i + (n + 1)) k - 1))
        have he : min (i + (n + 1)) k - 1 = i := by omega
        rw [he]
      · rw [if_neg hcase]
        rw [if_neg (show ¬ (k ≤ i ∨ n + 1 = 0) by omega)]
        have he : i + 1 + n = i + (n + 1) := by omega
        rw [he]

lemma viewAfter_append (v : RunView) (a b : List OEv) :
    viewAfter v (a ++ b) = viewAfter (viewAfter v a) b := by
  unfold viewAfter
  simp

/-- Claim C2: a run that is started and never stopped calls `send_pin`
exactly once for every code "0000".."9999" in strictly ascending order
(`fmt04` is injective on the range, so the list has no duplicates), each
completed send is followed by the 3 s inter-code sleep, and if a stop
request clears the flag during iteration `c` (so the check at iteration
`c + 1` is the first to read it false), at most one code at or past the
clear is sent before the loop exits. -/
theorem bruteforce_sends_all_codes :
    sentPins none none = (List.range 10000).map fmt04 ∧
    (∀ i j, i < 10000 → j < 10000 → fmt04 i = fmt04 j → i = j) ∧
    (∀ j, j < 10000 → ∃ pre post, bruteforceEvents none none =
      pre ++ [.setLastPin (fmt04 j), .send (fmt04 j), .sleepMs 3000] ++ post) ∧
    (∀ c, ((sentPins (some (c + 1)) none).drop c).length ≤ 1) := by
  refine ⟨?_, ?_, ?_, ?_⟩
  · unfold sentPins bruteforceEvents
    simp only [List.filterMap_append]
    rw [loopIter_sends]
    simp [sendOf, raiseReached, sentLen, List.range_eq_range' 10000]
  · intro i j hi hj h
    exact fmt04_inj hi hj h
  · intro j hj
    obtain ⟨pre, post, hpp⟩ := loopIter_block 10000 0 j hj
    rw [Nat.zero_add] at hpp
    refine ⟨[.setRunning true, .startRecordThread] ++ pre,
      post ++ [.setRunning false, .joinRecord 5000, .gpioLow], ?_⟩
    simp [bruteforceEvents, raiseReached, hpp, List.append_assoc]
  · intro c
    unfold sentPins bruteforceEvents
    simp only [List.filterMap_append]
    rw [loopIter_sends]
    simp [sendOf, raiseReached, sentLen, stopped]
    omega

/-- Witness for claim C2: code index 0 appears as an
update/send/sleep block, and injectivity at 3 = 3. -/
theorem bruteforce_sends_all_codes_witness :
    (0 < 10000) ∧
    (∃ pre post, bruteforceEvents none none =
      pre ++ [.setLastPin (fmt04 0), .send (fmt04 0), .sleepMs 3000] ++ post) ∧
    3 = 3 :=
  ⟨by decide, bruteforce_sends_all_codes.2.2.1 0 (by decide),
    bruteforce_sends_all_codes.2.1 3 3 (by decide) (by decide) rfl⟩

/-- Claim C4 counterexample: when `send_pin` raises during code "0000", the
trace logs the error (`except` block) strictly before the `finally` block
clears the active flag and forces the line low — the transition to Idle
does not happen before the error is reported, contradicting the claim's
ordering. -/
theorem error_logged_before_idle_cx :
    ¬ ((bruteforceEvents none (some 0)).indexOf (.setRunning false) <
        (bruteforceEvents none (some 0)).indexOf .logError) ∧
    ¬ ((bruteforceEvents none (some 0)).indexOf .gpioLow <
        (bruteforceEvents none (some 0)).indexOf .logError) := by
  decide

/-- Claim C4 (amended): an exception raised inside the code-iteration loop
is caught at the run boundary and does not propagate past
`bruteforce_pins`; the error is reported (logged) first, and then the
`finally` block clears the active flag, joins the capture thread with a
5 s timeout, and forces the actuator line low, so the run ends with the
flag false. -/
theorem loop_error_handled_then_cleanup (k : Nat) (hk : k < 10000) :
    bruteforceEvents none (some k) =
      ([.setRunning true, .startRecordThread] ++ loopIter none (some k) 10000 0) ++
        [.logError, .setRunning false, .joinRecord 5000, .gpioLow] ∧
    (viewAfter ⟨false, none⟩ (bruteforceEvents none (some k))).running = false := by
  have hr : raiseReached none (some k) = true := by
    simp [raiseReached, stopped, hk]
  have htrace : bruteforceEvents none (some k) =
      ([.setRunning true, .startRecordThread] ++ loopIter none (some k) 10000 0) ++
        [.logError, .setRunning false, .joinRecord 5000, .gpioLow] := by
    simp [bruteforceEvents, hr, List.append_assoc]
  refine ⟨htrace, ?_⟩
  rw [htrace, viewAfter_append]
  rfl

/-- Witness for claim C4 at an exception during the first code. -/
theorem loop_error_handled_then_cleanup_witness :
    (0 < 10000) ∧
    (viewAfter ⟨false, none⟩ (bruteforceEvents none (some 0))).running = false :=
  ⟨by decide, (loop_error_handled_then_cleanup 0 (by decide)).2⟩

/-- Claim C6 counterexample: after a run that attempted code "0000" and was
then stopped, the status query still reports "0000" — `last_pin` is never
cleared, so a subsequent status query does not report an empty current
code. -/
theorem status_after_run_keeps_last_pin_cx :
    get_current_pin (viewAfter ⟨false, none⟩ (bruteforceEvents (some 1) none)) =
      (some "0000", false) ∧
    (some "0000" : Option String) ≠ none := by
  decide

/-- Claim C6 (amended): when a run terminates the `finally` block clears the
active flag, joins the capture thread with a 5 s timeout, and then forces
the actuator line low — in that order, the line being lowered after the
join rather than before it — and `last_pin` is not cleared: a subsequent
status query reports the last attempted code, not an empty one. -/
theorem run_teardown_state (s : Nat) (hs : 1 ≤ s) :
    (∃ pre, bruteforceEvents (some s) none =
      pre ++ [.setRunning false, .joinRecord 5000, .gpioLow]) ∧
    (viewAfter ⟨false, none⟩ (bruteforceEvents (some s) none)).running = false ∧
    get_current_pin (viewAfter ⟨false, none⟩ (bruteforceEvents (some s) none)) =
      (some (fmt04 (min s 10000 - 1)), false) := by
  have hr : raiseReached (some s) none = false := rfl
  have htrace : bruteforceEvents (some s) none =
      ([.setRunning true, .startRecordThread] ++ loopIter (some s) none 10000 0) ++
        [.setRunning false, .joinRecord 5000, .gpioLow] := by
    simp [bruteforceEvents, hr, List.append_assoc]
  obtain ⟨hrun, hpin⟩ := loopIter_view s 10000 0 ⟨true, none⟩
  rw [if_neg (by omega)] at hpin
  have hV : viewAfter ⟨true, none⟩ (loopIter (some s) none 10000 0) =
      (⟨true, some (fmt04 (min (0 + 10000) s - 1))⟩ : RunView) := by
    have e : viewAfter ⟨true, none⟩ (loopIter (some s) none 10000 0) =
        ⟨(viewAfter ⟨true, none⟩ (loopIter (some s) none 10000 0)).running,
          (viewAfter ⟨true, none⟩ (loopIter (some s) none 10000 0)).lastPin⟩ := rfl
    rw [e, hrun, hpin]
  have hmin : min (0 + 10000) s = min s 10000 := by omega
  refine ⟨⟨_, htrace⟩, ?_, ?_⟩
  · rw [htrace, viewAfter_append]
    rfl
  · rw [htrace, viewAfter_append, viewAfter_append]
    have h0 : viewAfter ⟨false, none⟩ [OEv.setRunning true, OEv.startRecordThread] =
        (⟨true, none⟩ : RunView) := rfl
    rw [h0, hV]
    show (some (fmt04 (min (0 + 10000) s - 1)), false) =
      (some (fmt04 (min s 10000 - 1)), false)
    rw [hmin]

/-- Witness for claim C6 at a stop observed at iteration 1. -/
theorem run_teardown_state_witness :
    (1 ≤ 1) ∧
    get_current_pin (viewAfter ⟨false, none⟩ (bruteforceEvents (some 1) none)) =
      (some (fmt04 (min 1 10000 - 1)), false) :=
  ⟨by decide, (run_teardown_state 1 (by decide)).2.2⟩

/-- Claim C10 counterexample: observing the shared state three events into
a run (right after `last_pin = pin` executed, before `send_pin` is called —
the source even runs a log statement between the two), the status value is
"0000" although no send of "0000" occurs in the trace so far: the observed
code's transmission has not yet started within the current run. -/
theorem observed_pin_before_send_cx :
    (viewAfter ⟨false, none⟩ ((bruteforceEvents (some 1) none).take 3)).lastPin =
      some "0000" ∧
    OEv.send "0000" ∉ (bruteforceEvents (some 1) none).take 3 := by
  decide

/-- Claim C10 (amended): in a full run `last_pin` is updated to each code
immediately before that code's `send_pin` call — every update event is
directly followed by the corresponding send event — and any code observed
by the status query or frame stamping (starting from an empty `last_pin`)
was stored by an update that precedes the observation point; its send is
the very next event, but at the observation instant the transmission may
not yet have begun. -/
theorem last_pin_update_precedes_send :
    (∀ q c, (bruteforceEvents none none).get? q = some (.setLastPin c) →
      (bruteforceEvents none none).get? (q + 1) = some (.send c)) ∧
    (∀ p c,
      (viewAfter ⟨false, none⟩ ((bruteforceEvents none none).take p)).lastPin = some c →
      ∃ q, q < p ∧ (bruteforceEvents none none).get? q = some (.setLastPin c)) := by
  have htrace : bruteforceEvents none none =
      .setRunning true :: .startRecordThread ::
        (loopIter none none 10000 0 ++ [.setRunning false, .joinRecord 5000, .gpioLow]) := by
    simp [bruteforceEvents, raiseReached]
  constructor
  · intro q c h
    rw [htrace] at h ⊢
    rcases q with _ | _ | q
    · rw [List.get?_cons_zero] at h
      exact OEv.noConfusion (Option.some.inj h)
    · rw [List.get?_cons_succ, List.get?_cons_zero] at h
      exact OEv.noConfusion (Option.some.inj h)
    · simp only [List.get?_cons_succ] at h ⊢
      by_cases hq : q < (loopIter none none 10000 0).length
      · rw [List.get?_append hq] at h
        have h2 := loopIter_setPin_next none 10000 0 q c h
        have hlt : q + 1 < (loopIter none none 10000 0).length :=
          (List.get?_eq_some.mp h2).1
        rw [List.get?_append hlt]
        exact h2
      · rw [List.get?_append_right (by omega)] at h
        rcases he : q - (loopIter none none 10000 0).length with _ | _ | _ | r
        · rw [he, List.get?_cons_zero] at h
          exact OEv.noConfusion (Option.some.inj h)
        · rw [he, List.get?_cons_succ, List.get?_cons_zero] at h
          exact OEv.noConfusion (Option.some.inj h)
        · rw [he, List.get?_cons_succ, List.get?_cons_succ, List.get?_cons_zero] at h
          exact OEv.noConfusion (Option.some.inj h)
        · rw [he, List.get?_cons_succ, List.get?_cons_succ, List.get?_cons_succ,
            List.get?_nil] at h
          exact Option.noConfusion h
  · intro p c h
    rcases viewAfter_lastPin_mem ((bruteforceEvents none none).take p) ⟨false, none⟩ c h with
      ⟨q, hq, hget⟩ | hbase
    · have hqp : q < p := by
        have hlen : ((bruteforceEvents none none).take p).length ≤ p := by
          rw [List.length_take]
          exact Nat.min_le_left _ _
        omega
      refine ⟨q, hqp, ?_⟩
      rw [← List.get?_take hqp]
      exact hget
    · exact Option.noConfusion hbase

/-- Witness for claim C10: the first update event of the untouched run is at
index 2 and is followed by the send of "0000"; an observation right after
it sees a code stored by a preceding update. -/
theorem last_pin_update_precedes_send_witness :
    ((bruteforceEvents none none).get? 2 = some (.setLastPin (fmt04 0)) →
      (bruteforceEvents none none).get? 3 = some (.send (fmt04 0))) ∧
    ((viewAfter ⟨false, none⟩ ((bruteforceEvents none none).take 3)).lastPin =
        some (fmt04 0) →
      ∃ q, q < 3 ∧ (bruteforceEvents none none).get? q = some (.setLastPin (fmt04 0))) :=
  ⟨fun h => last_pin_update_precedes_send.1 2 (fmt04 0) h,
    fun h => last_pin_update_precedes_send.2 3 (fmt04 0) h⟩

/-! ## Start request handling (`index`) and camera initialisation -/

structure WebState where
  running : Bool
  /-- The global `camera` handle: `none` before any `cv2.VideoCapture` was
  stored, `some opened` once a handle exists (`opened` records
  `isOpened()` — the source stores the handle even when opening fails). -/
  camera : Option Bool
deriving DecidableEq

inductive StartOutcome where
  | started : StartOutcome
  | rejectedCamera : StartOutcome
  | ignored : StartOutcome
deriving DecidableEq

/-- `init_camera` from the source: `cv2.VideoCapture(0)` stores a handle in
the global `camera` regardless of whether it opens; the function returns
`camera.isOpened()`. -/
def init_camera (openOk : Bool) (s : WebState) : WebState × Bool :=
  ({ s with camera := some openOk }, openOk)

/-- The `action == "start"` branch of `index` from the source: a request
while `running` is true is ignored; with no camera handle, `init_camera` is
attempted and a failure rejects the start (an error page is rendered and no
thread is spawned); otherwise the `bruteforce_pins` thread is spawned. The
final component records whether a thread was spawned. -/
def startRequest (openOk : Bool) (s : WebState) : WebState × StartOutcome × Bool :=
  if s.running then (s, .ignored, false)
  else
    match s.camera with
    | none =>
      let r := init_camera openOk s
      if r.2 then (r.1, .started, true) else (r.1, .rejectedCamera, false)
    | some _ => (s, .started, true)

/-- Claim C5 counterexample: when the frame source fails to open at run
start (no camera handle yet, `init_camera` fails), the start request is
rejected and no `bruteforce_pins` thread is spawned — the run does not
transition to Running and no codes are sent, contradicting the claim. -/
theorem camera_open_failure_rejects_start_cx :
    (startRequest false ⟨false, none⟩).2.1 = .rejectedCamera ∧
    (startRequest false ⟨false, none⟩).2.2 = false := by
  decide

/-- Claim C5 (amended): a frame-source open failure at run start aborts the
transition — the start is rejected and no code iteration is spawned.  Only
when a camera handle already exists does the run proceed: the capture task
started without any camera handle produces zero artifacts and just logs,
and a stale unopened handle left by a failed `init_camera` lets a later
start proceed (the pulse sequence then runs while capture reads fail). -/
theorem camera_failure_behavior :
    (startRequest false ⟨false, none⟩).2 = (.rejectedCamera, false) ∧
    (∀ ts ticks, record_images_and_video false ts ticks =
      ⟨[], 0, false, false, [.logNoCamera]⟩) ∧
    (startRequest false ⟨false, some false⟩).2 = (.started, true) := by
  exact ⟨rfl, fun ts ticks => rfl, rfl⟩

/-! ## Concurrent start requests (claim C3)

`index` guards thread creation with `if action == "start" and not running:`,
but `running` only becomes `True` later, as the first statement of the
spawned `bruteforce_pins` thread, and no lock is held: the check and the
spawn are separate atomic steps.  Flask serves requests on separate threads
(`threaded=True`), so two start requests interleave freely with each other
and with the spawned threads. -/

structure RaceState where
  running : Bool
  /-- Number of `bruteforce_pins` loops spawned (each also spawns its own
  capture thread). -/
  loops : Nat
  seen1 : Option Bool
  seen2 : Option Bool
  /-- Spawned threads that have not yet executed `running = True`. -/
  pendingSet : Nat
deriving DecidableEq

inductive RaceAct where
  | check1 : RaceAct
  | spawn1 : RaceAct
  | check2 : RaceAct
  | spawn2 : RaceAct
  | threadSetRunning : RaceAct
deriving DecidableEq

def raceStep (s : RaceState) : RaceAct → RaceState
  | .check1 => { s with seen1 := some s.running }
  | .check2 => { s with seen2 := some s.running }
  | .spawn1 =>
    if s.seen1 = some false then
      { s with loops := s.loops + 1, pendingSet := s.pendingSet + 1 }
    else s
  | .spawn2 =>
    if s.seen2 = some false then
      { s with loops := s.loops + 1, pendingSet := s.pendingSet + 1 }
    else s
  | .threadSetRunning =>
    if s.pendingSet > 0 then
      { s with running := true, pendingSet := s.pendingSet - 1 }
    else s

def raceInit : RaceState := ⟨false, 0, none, none, 0⟩

def raceExec (acts : List RaceAct) : RaceState := acts.foldl raceStep raceInit

/-- Claim C3 is right and the code violates it: under the interleaving
check₁, check₂, spawn₁, spawn₂ both start requests read `running = False`
before either spawned thread executes `running = True`, so two
code-iteration loops (each with its own capture thread and video writer)
are spawned — the at-most-one-run invariant fails under concurrent start
requests.  With well-separated requests (the spawned thread sets the flag
before the second check) only one loop is spawned. -/
theorem concurrent_start_spawns_two_loops :
    (raceExec [.check1, .check2, .spawn1, .spawn2]).loops = 2 ∧
    (raceExec [.check1, .spawn1, .threadSetRunning, .check2, .spawn2]).loops = 1 := by
  decide

/-! ## Process shutdown (`cleanup`, `signal_handler`) -/

inductive ShEv where
  | setRunningFalse : ShEv
  | releaseCamera : ShEv
  | gpioOutLow : ShEv
  | gpioCleanupCall : ShEv
  | releaseVideoWriter : ShEv
  | exitProcess : Nat → ShEv
deriving DecidableEq

/-- `cleanup` from the source (registered via `atexit` and called from the
signal handler and the `__main__` `finally`): set `running = False`;
release the camera if the handle exists; then, inside `try/except: pass`,
drive the GPIO line low and call `GPIO.cleanup()` — if the GPIO output call
raises, both are silently skipped.  The capture thread's video writer is a
local of `record_images_and_video`; `cleanup` neither releases it nor joins
the (daemon) capture thread. -/
def cleanup (camPresent : Bool) (gpioOk : Bool) : List ShEv :=
  [.setRunningFalse] ++ (if camPresent then [.releaseCamera] else []) ++
    (if gpioOk then [.gpioOutLow, .gpioCleanupCall] else [])

/-- `signal_handler` from the source: log the signal, run `cleanup`, then
`sys.exit(0)`. -/
def signal_handler (camPresent : Bool) (gpioOk : Bool) : List ShEv :=
  cleanup camPresent gpioOk ++ [.exitProcess 0]

/-- Claim C9 counterexample: the shutdown sequence (with camera present and
GPIO healthy) contains no video-writer release — neither `cleanup` nor the
termination-signal path finalizes an open video artifact, contradicting the
claim that every exit path does. -/
theorem cleanup_lacks_video_finalize_cx :
    ShEv.releaseVideoWriter ∉ cleanup true true ∧
    ShEv.releaseVideoWriter ∉ signal_handler true true := by
  decide

/-- Claim C9 (amended): on every exit path the shutdown sequence clears the
run flag, releases the frame source when a handle exists, and drives the
actuator line low on a best-effort basis (a GPIO failure silently skips
it); it does not itself finalize an open video artifact — that only happens
if the daemon capture thread observes the cleared flag before the process
dies, which the shutdown sequence neither performs nor waits for. -/
theorem cleanup_actions_spec (camPresent gpioOk : Bool) :
    ShEv.setRunningFalse ∈ cleanup camPresent gpioOk ∧
    (camPresent = true → ShEv.releaseCamera ∈ cleanup camPresent gpioOk) ∧
    (gpioOk = true → ShEv.gpioOutLow ∈ cleanup camPresent gpioOk) ∧
    (gpioOk = false → ShEv.gpioOutLow ∉ cleanup camPresent gpioOk) ∧
    ShEv.releaseVideoWriter ∉ cleanup camPresent gpioOk ∧
    ShEv.releaseVideoWriter ∉ signal_handler camPresent gpioOk := by
  cases camPresent <;> cases gpioOk <;> decide

/-- Witness for claim C9 with camera present and healthy GPIO. -/
theorem cleanup_actions_spec_witness :
    (true = true) ∧
    ShEv.releaseCamera ∈ cleanup true true ∧
    ShEv.gpioOutLow ∈ cleanup true true ∧
    ShEv.releaseVideoWriter ∉ cleanup true true :=
  ⟨rfl, (cleanup_actions_spec true true).2.1 rfl,
    (cleanup_actions_spec true true).2.2.1 rfl,
    (cleanup_actions_spec true true).2.2.2.2.1⟩

end Webgui
